import Mathlib

/-!
Verification of the iota.rs client-engine specification against a shallow
embedding.  The repository ships only the Node.js binding surface
(`src/bindings/node/lib/index.d.ts`); the engine behind it (quorum
resolution, seed/key derivation, balance aggregation, message building,
proof of work) is not part of the sources.  Components missing from the
sources are modelled from the specification, as marked on each definition.
-/

namespace IotaClient

/-! ## Seed/key derivation (spec §4.3 SeedKeyDerivation) -/

/-- A derived address: a fixed-length identifier, embedded as its numeric
code.  Modelled from the spec: the derivation engine is absent from the
sources; the binding only declares `Address` as an opaque imported type. -/
structure Address where
  code : Nat
deriving DecidableEq, Repr

/-- A derived key pair.  Modelled from the spec: `derive` yields one key
pair together with the address. -/
structure KeyPair where
  privKey : Nat
  pubKey : Nat
deriving DecidableEq, Repr

/-- A seed is an opaque secret byte sequence (spec §3); embedded as a list
of byte values. -/
def Seed : Type := List Nat

/-- Injective numeric code of a seed, built with the Cantor pairing
function so that distinct seeds stay distinguishable in the model. -/
def seedCode (s : Seed) : Nat :=
  s.foldl (fun acc b => Nat.pair acc b + 1) 0

/-- Modelled from the spec: `derive(seed, accountIndex, addressIndex,
isInternal) -> (KeyPair, Address)` is a pure function family with no I/O
(spec §4.3); the data model maps each `(accountIndex, addressIndex,
isInternal)` triple 1:1 to an address (spec §3, AddressIndex).  The
derivation material packs all four inputs injectively with the pairing
function, standing in for the one-way hierarchical derivation whose code
is not in the sources. -/
def derive (seed : Seed) (accountIndex addressIndex : Nat) (isInternal : Bool) :
    KeyPair × Address :=
  let material :=
    Nat.pair (seedCode seed)
      (Nat.pair accountIndex (Nat.pair addressIndex (cond isInternal 1 0)))
  ({ privKey := Nat.pair material 0, pubKey := Nat.pair material 1 },
   { code := material })

/-- The address component of a derivation. -/
def deriveAddress (seed : Seed) (accountIndex addressIndex : Nat)
    (isInternal : Bool) : Address :=
  (derive seed accountIndex addressIndex isInternal).2

/-- A log of network requests issued by an operation; pure offline
operations leave it untouched. -/
def NetLog : Type := List String

/-- Modelled from the spec: derivation performed inside the client,
instrumented with the ambient network-request log.  Derivation has no
network dependency (spec §4.3, "no I/O"), so the result ignores the log
and the log is returned unchanged. -/
def deriveWithNet (net : NetLog) (seed : Seed) (accountIndex addressIndex : Nat)
    (isInternal : Bool) : (KeyPair × Address) × NetLog :=
  (derive seed accountIndex addressIndex isInternal, net)

/-! ## Quorum resolution (spec §4.2 QuorumResolver) -/

/-- A response collected from one node during a quorum query: the node's
identity, the value it returned, and its round-trip latency estimate
(spec §3 Node, §4.2).  Modelled from the spec: the resolver is absent from
the sources. -/
structure NodeResponse (α : Type) where
  nodeId : Nat
  value : α
  latency : Nat
deriving DecidableEq, Repr

/-- Quorum configuration (spec §3 QuorumConfig): `size` nodes queried per
request and the agreement `threshold`, a fraction in (0,1] of responses
received, embedded exactly as the pair `thresholdNum / thresholdDen`. -/
structure QuorumConfig where
  size : Nat
  thresholdNum : Nat
  thresholdDen : Nat
deriving DecidableEq, Repr

/-- The configured threshold as an exact rational number. -/
def thresholdFraction (cfg : QuorumConfig) : ℚ :=
  (cfg.thresholdNum : ℚ) / (cfg.thresholdDen : ℚ)

/-- The agreement condition of spec §4.2: the winning group's size divided
by the number of responses received meets or exceeds the threshold,
compared exactly by cross-multiplication. -/
def meetsThreshold (cfg : QuorumConfig) (responses groupSize : Nat) : Prop :=
  cfg.thresholdNum * responses ≤ cfg.thresholdDen * groupSize

instance (cfg : QuorumConfig) (responses groupSize : Nat) :
    Decidable (meetsThreshold cfg responses groupSize) :=
  inferInstanceAs (Decidable (_ ≤ _))

/-- Quorum failure: `quorumNotReached` carries the per-node disagreement
map for diagnostics (spec §4.2, §7). -/
inductive QuorumError (α : Type) where
  | quorumNotReached (disagreement : List (Nat × α))
deriving DecidableEq, Repr

/-- Number of responses whose value equals `v` — the size of the
equal-value response group of `v` (grouping is by structural value
equality, spec §4.2). -/
def count {α : Type} [DecidableEq α] (rs : List (NodeResponse α)) (v : α) : Nat :=
  rs.countP (fun r => decide (r.value = v))

/-- Aggregate latency of the response group of `v` (spec §4.2 tie-break). -/
def latencySum {α : Type} [DecidableEq α] (rs : List (NodeResponse α)) (v : α) : Nat :=
  ((rs.filter (fun r => decide (r.value = v))).map (fun r => r.latency)).sum

/-- The distinct values occurring among the responses, each representing
one equal-value group. -/
def candidates {α : Type} [DecidableEq α] (rs : List (NodeResponse α)) : List α :=
  (rs.map (fun r => r.value)).dedup

/-- Group preference: `a` beats `b` when its group is strictly larger, or
the groups tie in size and `a`'s group has strictly lower aggregate
latency (spec §4.2: largest group, ties broken by lowest aggregate
latency). -/
def betterGroup {α : Type} [DecidableEq α] (rs : List (NodeResponse α)) (a b : α) : Bool :=
  decide (count rs b < count rs a) ||
    (decide (count rs a = count rs b) && decide (latencySum rs a < latencySum rs b))

/-- Select the winning group representative among the candidate values. -/
def pickWinner {α : Type} [DecidableEq α] (rs : List (NodeResponse α)) :
    List α → Option α
  | [] => none
  | c :: cs => some (cs.foldl (fun best x => if betterGroup rs x best then x else best) c)

/-- The representative value of the winning (largest, lowest-latency on
ties) equal-value response group, when any response arrived. -/
def winner {α : Type} [DecidableEq α] (rs : List (NodeResponse α)) : Option α :=
  pickWinner rs (candidates rs)

/-- The per-node disagreement map: which node returned which value. -/
def disagreementMap {α : Type} (rs : List (NodeResponse α)) : List (Nat × α) :=
  rs.map (fun r => (r.nodeId, r.value))

/-- Modelled from the spec (§4.2, the resolver is absent from the
sources): group the received responses by exact value equality; the
largest group's size divided by the number of responses received must meet
or exceed `threshold` (ties broken by lowest aggregate latency); if so its
representative value is returned, and if no group meets the threshold, or
fewer than `size/2` nodes responded in time, the call fails with
`QuorumNotReached` carrying the per-node disagreement map. -/
def resolveQuorum {α : Type} [DecidableEq α] (cfg : QuorumConfig)
    (rs : List (NodeResponse α)) : Except (QuorumError α) α :=
  if 2 * rs.length < cfg.size then
    .error (.quorumNotReached (disagreementMap rs))
  else
    match winner rs with
    | none => .error (.quorumNotReached (disagreementMap rs))
    | some v =>
      if meetsThreshold cfg rs.length (count rs v) then .ok v
      else .error (.quorumNotReached (disagreementMap rs))

/-- DecidableEq for `Except`, so concrete resolver runs can be checked by
`decide`. -/
instance {ε α : Type} [DecidableEq ε] [DecidableEq α] :
    DecidableEq (Except ε α) := fun a b =>
  match a, b with
  | .ok x, .ok y =>
    if h : x = y then isTrue (by rw [h])
    else isFalse (fun hc => h (Except.ok.inj hc))
  | .error e, .error f =>
    if h : e = f then isTrue (by rw [h])
    else isFalse (fun hc => h (Except.error.inj hc))
  | .ok _, .error _ => isFalse (fun hc => Except.noConfusion hc)
  | .error _, .ok _ => isFalse (fun hc => Except.noConfusion hc)

/-! ## Balance aggregation (spec §4.4 BalanceAggregator) -/

/-- Modelled from the spec (§4.4 UnspentAddressGetter, absent from the
sources): walk the quorum-observed output history (entry `k` of the list
says whether the address at index `start + k` has any output history),
keeping the last index with history; a run of `gapLimit` consecutive empty
addresses terminates the scan.  `fuel` is the remaining gap budget; the
scan also stops at the end of the recorded history, where every further
address is empty. -/
def scanGo (gapLimit : Nat) (hist : List Bool) (idx fuel : Nat)
    (last : Option Nat) : Option Nat :=
  match fuel, hist with
  | 0, _ => last
  | _ + 1, [] => last
  | f + 1, b :: rest =>
    if b then scanGo gapLimit rest (idx + 1) gapLimit (some idx)
    else scanGo gapLimit rest (idx + 1) f last

/-- The gap-limit scan: the index of the last address with output history,
starting from `start`, or `none` when no scanned address has history. -/
def scanLastUsed (gapLimit : Nat) (hist : List Bool) (start : Nat) : Option Nat :=
  scanGo gapLimit (hist.drop start) start gapLimit none

/-- Modelled from the spec: UnspentAddressGetter.get returns the last
address found to have any output history together with its index, or the
initial address if none has history (spec §4.4); the binding declares only
`get(): Promise<[Address, number]>`. -/
def unspentAddressGet (seed : Seed) (accountIndex : Nat) (gapLimit : Nat)
    (hist : List Bool) (start : Nat) : Address × Nat :=
  let i := (scanLastUsed gapLimit hist start).getD start
  (deriveAddress seed accountIndex i false, i)

/-- Modelled from the spec (§4.4 AddressFinder, absent from the sources):
derive the contiguous index range `[start, end)` offline; each address is
paired with the "has been used" flag, locally unknown and left `false` for
the caller to resolve. -/
def addressFinderGet (seed : Seed) (accountIndex : Nat)
    (start stop : Nat) : List (Address × Bool) :=
  (List.range' start (stop - start)).map
    (fun i => (deriveAddress seed accountIndex i false, false))

/-- `addressFinderGet` instrumented with the network-request log: the
operation is synchronous/offline (spec §4.4), so the log is untouched. -/
def addressFinderRun (net : NetLog) (seed : Seed) (accountIndex : Nat)
    (start stop : Nat) : List (Address × Bool) × NetLog :=
  (addressFinderGet seed accountIndex start stop, net)

/-- Modelled from the spec (§4.4 BalanceGetter, absent from the sources):
sum the per-address balances over the used-address range, each fetched
through the quorum resolver; any per-address quorum failure fails the
whole aggregation. -/
def aggregateBalance (fetch : Nat → Except (QuorumError Nat) Nat) :
    List Nat → Except (QuorumError Nat) Nat
  | [] => .ok 0
  | i :: rest =>
    match fetch i with
    | .error e => .error e
    | .ok b =>
      match aggregateBalance fetch rest with
      | .error e => .error e
      | .ok s => .ok (b + s)

/-- BalanceGetter.get: aggregate over `idxs`, resolving each address's
balance from the per-address node responses via the quorum resolver. -/
def balanceGet (cfg : QuorumConfig)
    (responsesAt : Nat → List (NodeResponse Nat)) (idxs : List Nat) :
    Except (QuorumError Nat) Nat :=
  aggregateBalance (fun i => resolveQuorum cfg (responsesAt i)) idxs

/-! ## Message construction and submission (spec §4.6) -/

/-- Build/validation failures of the message state machine (spec §7). -/
inductive BuildError where
  | underfundedTransaction
  | emptyPayload
  | invalidParent
deriving DecidableEq, Repr

/-- A message payload: a transaction, an indexation payload, or none. -/
inductive Payload where
  | transaction (inputs : List Nat) (outputs : List (String × Nat))
  | indexation (index : String) (data : List Nat)
  | none
deriving DecidableEq, Repr

/-- Total value of the attached outputs. -/
def outputsTotal (outputs : List (String × Nat)) : Nat :=
  (outputs.map (fun o => o.2)).sum

/-- Total value of the selected inputs. -/
def inputsTotal (inputs : List Nat) : Nat := inputs.sum

/-- Modelled from the spec (§4.6, absent from the sources): the
InputsSelected → OutputsAttached → PayloadAssembled transitions; assembly
is rejected with `UnderfundedTransaction` when the attached outputs' total
exceeds the selected inputs' total, and with an error when neither an
output nor an indexation payload is present. -/
def assembleTransaction (inputs : List Nat) (outputs : List (String × Nat)) :
    Except BuildError Payload :=
  if inputsTotal inputs < outputsTotal outputs then .error .underfundedTransaction
  else if outputs.isEmpty then .error .emptyPayload
  else .ok (.transaction inputs outputs)

/-- A network request issued during submission. -/
structure NetRequest where
  api : String
deriving DecidableEq, Repr

/-- Content code of a payload, standing in for content addressing. -/
def payloadCode : Payload → Nat
  | .transaction inputs outputs =>
    Nat.pair 0 (Nat.pair (inputsTotal inputs) (outputsTotal outputs))
  | .indexation index data => Nat.pair 1 (Nat.pair index.length data.sum)
  | .none => 2

/-- Modelled from the spec: MessageSender.submit assembles the payload and
only then posts the message; the result is paired with the list of network
requests issued, so that validation failures provably occur before any
network submission is attempted. -/
def submitMessage (inputs : List Nat) (outputs : List (String × Nat)) :
    Except BuildError Nat × List NetRequest :=
  match assembleTransaction inputs outputs with
  | .error e => (.error e, [])
  | .ok p => (.ok (payloadCode p), [{ api := "PostMessage" }])

/-! ## Proof of work (spec §4.5 ProofOfWorkEngine) -/

/-- Proof-of-work failure (spec §7). -/
inductive PowError where
  | proofOfWorkTimeout
deriving DecidableEq, Repr

/-- Modelled from the spec (§4.5, absent from the sources): iterate nonce
candidates from `nonce` while `fuel` of the iteration budget remains,
returning the first nonce whose score meets the target, else
`ProofOfWorkTimeout`. -/
def powSearch (score : List Nat → Nat → Nat) (messageBytes : List Nat)
    (targetScore : Nat) : Nat → Nat → Except PowError Nat
  | _, 0 => .error .proofOfWorkTimeout
  | nonce, fuel + 1 =>
    if targetScore ≤ score messageBytes nonce then .ok nonce
    else powSearch score messageBytes targetScore (nonce + 1) fuel

/-- ProofOfWorkEngine.compute: search nonces 0, 1, … within the configured
iteration budget. -/
def powCompute (score : List Nat → Nat → Nat) (messageBytes : List Nat)
    (targetScore budget : Nat) : Except PowError Nat :=
  powSearch score messageBytes targetScore 0 budget

/-! ## Submitted-message store, reattach and promote (spec §4.6, §3) -/

/-- A submitted message: parent references, payload, nonce (spec §3). -/
structure MessageRec where
  parents : List Nat
  payload : Payload
  nonce : Nat
deriving DecidableEq, Repr

/-- The set of messages the client has submitted, keyed by identifier. -/
abbrev Store : Type := List (Nat × MessageRec)

/-- Identifiers present in the store. -/
def storeIds (s : Store) : List Nat := s.map (fun p => p.1)

/-- A fresh identifier, strictly above every identifier in the store. -/
def freshId (s : Store) : Nat :=
  (storeIds s).foldr (fun a b => max a b) 0 + 1

/-- Look a submitted message up by identifier. -/
def lookupMsg (s : Store) (mid : Nat) : Option MessageRec :=
  (s.find? (fun p => p.1 == mid)).map (fun p => p.2)

/-- Modelled from the spec: the NonceComputed → Submitted tail of the
pipeline — attach the computed nonce and record the new message under a
fresh identifier, returning the updated store and the identifier. -/
def submitTail (s : Store) (parents : List Nat) (payload : Payload)
    (nonce : Nat) : Store × Nat :=
  let mid := freshId s
  ((mid, { parents := parents, payload := payload, nonce := nonce }) :: s, mid)

/-- Modelled from the spec (§4.6, absent from the sources): `reattach`
constructs a *new* message whose parent is the original message and runs
the NonceComputed → Submitted tail; the original is never mutated. -/
def reattachMessage (s : Store) (origId : Nat) (nonce : Nat) :
    Except BuildError (Store × Nat) :=
  match lookupMsg s origId with
  | Option.none => .error .invalidParent
  | Option.some _ => .ok (submitTail s [origId] .none nonce)

/-- Modelled from the spec (§4.6, absent from the sources): `promote`
attaches a child message referencing the original and runs the same
NonceComputed → Submitted tail; the original is never mutated. -/
def promoteMessage (s : Store) (origId : Nat) (nonce : Nat) :
    Except BuildError (Store × Nat) :=
  match lookupMsg s origId with
  | Option.none => .error .invalidParent
  | Option.some _ => .ok (submitTail s [origId] (.indexation "PROMOTE" []) nonce)

/-! ## getTips (binding surface, `index.d.ts` line 78) -/

/-- The declared result type of `Client.getTips`:
`getTips(): Promise<[string, string]>` — a pair of message identifiers. -/
abbrev GetTipsResult : Type := String × String

/-- The tips as a list of message identifiers. -/
def tipsIds (t : GetTipsResult) : List String := [t.1, t.2]

/-- getTips resolved through the quorum engine over the declared pair
type. -/
def getTipsResolve (cfg : QuorumConfig)
    (rs : List (NodeResponse (String × String))) :
    Except (QuorumError (String × String)) GetTipsResult :=
  resolveQuorum cfg rs

end IotaClient

namespace IotaClient

/-- C2: Seed/key derivation is deterministic and network-independent: two
calls of `derive` with identical seed, accountIndex, addressIndex and
isInternal flag — in arbitrary (possibly different) network states — yield
the identical key pair and address, and issue no network request. -/
theorem derive_deterministic (seed : Seed) (accountIndex addressIndex : Nat)
    (isInternal : Bool) (net₁ net₂ : NetLog) :
    (deriveWithNet net₁ seed accountIndex addressIndex isInternal).1 =
      (deriveWithNet net₂ seed accountIndex addressIndex isInternal).1 ∧
    (deriveWithNet net₁ seed accountIndex addressIndex isInternal).2 = net₁ := by
  exact ⟨rfl, rfl⟩

/-- C3: For a fixed seed (and fixed internal/external chain), distinct
`(accountIndex, addressIndex)` pairs derive distinct addresses — the
derivation map is injective over the whole of ℕ × ℕ, hence in particular
over the first 2^31 index values. -/
theorem derive_injective (seed : Seed) (isInternal : Bool)
    (a₁ i₁ a₂ i₂ : Nat) (h : a₁ ≠ a₂ ∨ i₁ ≠ i₂) :
    deriveAddress seed a₁ i₁ isInternal ≠ deriveAddress seed a₂ i₂ isInternal := by
  intro hc
  have hcode : (deriveAddress seed a₁ i₁ isInternal).code =
      (deriveAddress seed a₂ i₂ isInternal).code := by rw [hc]
  simp only [deriveAddress, derive, Nat.pair_eq_pair] at hcode
  rcases h with h | h
  · exact h hcode.2.1
  · exact h hcode.2.2.1

/-- Witness for C3 at concrete inputs: indices (0,0) and (0,1) of the empty
seed derive different addresses. -/
theorem derive_injective_witness :
    ((0 : Nat) ≠ 0 ∨ (0 : Nat) ≠ 1) ∧
      deriveAddress [] 0 0 false ≠ deriveAddress [] 0 1 false :=
  ⟨Or.inr (by decide), derive_injective [] false 0 0 0 1 (Or.inr (by decide))⟩

/-- A winning comparison implies the winner's group is at least as large. -/
theorem betterGroup_le {α : Type} [DecidableEq α] {rs : List (NodeResponse α)}
    {a b : α} (h : betterGroup rs a b = true) : count rs b ≤ count rs a := by
  simp only [betterGroup, Bool.or_eq_true, Bool.and_eq_true, decide_eq_true_eq] at h
  rcases h with h | h
  · exact Nat.le_of_lt h
  · exact Nat.le_of_eq h.1.symm

/-- A losing comparison implies the loser's group is no larger. -/
theorem betterGroup_ge {α : Type} [DecidableEq α] {rs : List (NodeResponse α)}
    {a b : α} (h : betterGroup rs a b = false) : count rs a ≤ count rs b := by
  simp only [betterGroup, Bool.or_eq_false_iff, Bool.and_eq_false_iff,
    decide_eq_false_iff_not, Nat.not_lt] at h
  exact h.1

/-- The fold inside `pickWinner` returns either its seed or a scanned
element, never shrinks the group size of the seed, and dominates the group
size of every scanned element. -/
theorem pickFold_spec {α : Type} [DecidableEq α] (rs : List (NodeResponse α))
    (l : List α) : ∀ c : α,
    (l.foldl (fun best x => if betterGroup rs x best then x else best) c = c ∨
      l.foldl (fun best x => if betterGroup rs x best then x else best) c ∈ l) ∧
    count rs c ≤
      count rs (l.foldl (fun best x => if betterGroup rs x best then x else best) c) ∧
    ∀ w ∈ l, count rs w ≤
      count rs (l.foldl (fun best x => if betterGroup rs x best then x else best) c) := by
  induction l with
  | nil => intro c; simp
  | cons x xs ih =>
    intro c
    simp only [List.foldl_cons]
    obtain ⟨ihm, ihc, ihall⟩ := ih (if betterGroup rs x c then x else c)
    refine ⟨?_, ?_, ?_⟩
    · rcases ihm with h | h
      · by_cases hb : betterGroup rs x c = true
        · right; rw [h, if_pos hb]; exact List.mem_cons_self x xs
        · left; rw [h, if_neg hb]
      · right; exact List.mem_cons_of_mem x h
    · refine le_trans ?_ ihc
      by_cases hb : betterGroup rs x c = true
      · rw [if_pos hb]; exact betterGroup_le hb
      · rw [if_neg hb]
    · intro w hw
      rcases List.mem_cons.mp hw with rfl | hw
      · refine le_trans ?_ ihc
        by_cases hb : betterGroup rs w c = true
        · rw [if_pos hb]
        · rw [if_neg hb]
          exact betterGroup_ge (Bool.not_eq_true _ ▸ hb)
      · exact ihall w hw

/-- The winner is one of the returned values and its equal-value group is
the largest among all values. -/
theorem winner_spec {α : Type} [DecidableEq α] {rs : List (NodeResponse α)}
    {v : α} (h : winner rs = some v) :
    v ∈ rs.map (fun r => r.value) ∧ ∀ w : α, count rs w ≤ count rs v := by
  rw [winner] at h
  cases hc : candidates rs with
  | nil => rw [hc] at h; exact Option.noConfusion h
  | cons c cs =>
    rw [hc, pickWinner] at h
    injection h with h
    obtain ⟨hm, hcseed, hall⟩ := pickFold_spec rs cs c
    have hvcand : v ∈ candidates rs := by
      rw [hc]
      rcases hm with hm | hm
      · rw [← h, hm]; exact List.mem_cons_self c cs
      · rw [← h]; exact List.mem_cons_of_mem c hm
    refine ⟨List.mem_dedup.mp (by rw [← candidates]; exact hvcand), ?_⟩
    intro w
    by_cases hwc : w ∈ candidates rs
    · rw [hc] at hwc
      rcases List.mem_cons.mp hwc with rfl | hw
      · rw [← h]; exact hcseed
      · rw [← h]; exact hall w hw
    · have h0 : count rs w = 0 := by
        rw [count, List.countP_eq_zero]
        intro r hr
        simp only [decide_eq_true_eq]
        intro hrw
        exact hwc (by
          rw [candidates]
          exact List.mem_dedup.mpr (List.mem_map.mpr ⟨r, hr, hrw⟩))
      rw [h0]
      exact Nat.zero_le _

/-- The cross-multiplied agreement condition coincides with the rational
"group size divided by responses received meets the threshold". -/
theorem meetsThreshold_iff (cfg : QuorumConfig) (hden : 0 < cfg.thresholdDen)
    (responses groupSize : Nat) :
    meetsThreshold cfg responses groupSize ↔
      thresholdFraction cfg * (responses : ℚ) ≤ (groupSize : ℚ) := by
  have hd : (0 : ℚ) < (cfg.thresholdDen : ℚ) := by exact_mod_cast hden
  rw [meetsThreshold, thresholdFraction, div_mul_eq_mul_div, div_le_iff₀ hd,
    mul_comm (groupSize : ℚ) (cfg.thresholdDen : ℚ)]
  exact_mod_cast Iff.rfl

/-- C1: the quorum resolver returns a value exactly when it is the
representative of the largest equal-value response group and that group's
size divided by the number of responses received meets or exceeds the
configured threshold; if no group meets the threshold, or fewer than
`size/2` nodes responded, it fails with `QuorumNotReached` carrying the
disagreement map — never a majority-but-under-threshold value. -/
theorem quorum_read_resolution {α : Type} [DecidableEq α]
    (cfg : QuorumConfig) (rs : List (NodeResponse α))
    (hden : 0 < cfg.thresholdDen) :
    (∀ v : α, resolveQuorum cfg rs = .ok v →
        cfg.size ≤ 2 * rs.length ∧
        v ∈ rs.map (fun r => r.value) ∧
        (∀ w : α, count rs w ≤ count rs v) ∧
        thresholdFraction cfg * (rs.length : ℚ) ≤ (count rs v : ℚ)) ∧
    ((2 * rs.length < cfg.size ∨
        ∀ v : α, (count rs v : ℚ) < thresholdFraction cfg * (rs.length : ℚ)) →
      resolveQuorum cfg rs = .error (.quorumNotReached (disagreementMap rs))) ∧
    (∀ v : α, cfg.size ≤ 2 * rs.length → winner rs = some v →
        thresholdFraction cfg * (rs.length : ℚ) ≤ (count rs v : ℚ) →
        resolveQuorum cfg rs = .ok v) := by
  refine ⟨?_, ?_, ?_⟩
  · intro v hv
    unfold resolveQuorum at hv
    split at hv
    · exact Except.noConfusion hv
    · rename_i hlen
      split at hv
      · exact Except.noConfusion hv
      · rename_i u hw
        split at hv
        · rename_i hthr
          injection hv with hv
          subst hv
          obtain ⟨hmem, hmax⟩ := winner_spec hw
          exact ⟨Nat.le_of_not_lt hlen, hmem, hmax,
            (meetsThreshold_iff cfg hden _ _).mp hthr⟩
        · exact Except.noConfusion hv
  · intro hfail
    unfold resolveQuorum
    split
    · rfl
    · rename_i hlen
      split
      · rfl
      · rename_i u hw
        rcases hfail with hfail | hfail
        · exact absurd hfail hlen
        · rw [if_neg
            (fun hc => absurd ((meetsThreshold_iff cfg hden _ _).mp hc)
              (not_le.mpr (hfail u)))]
  · intro v hlen hw hthr
    unfold resolveQuorum
    rw [if_neg (Nat.not_lt.mpr hlen), hw]
    exact if_pos ((meetsThreshold_iff cfg hden _ _).mpr hthr)

/-- Witness for C1: with quorum size 3, threshold 33/50 = 0.66 and
responses {node 1 ↦ 50, node 2 ↦ 50, node 3 ↦ 40}, the resolver returns
50, and the theorem instantiated there certifies the threshold inequality
for the winning group. -/
theorem quorum_read_resolution_witness :
    thresholdFraction ⟨3, 33, 50⟩ *
        (([⟨1, 50, 10⟩, ⟨2, 50, 10⟩, ⟨3, 40, 10⟩] :
          List (NodeResponse Nat)).length : ℚ) ≤
      (count ([⟨1, 50, 10⟩, ⟨2, 50, 10⟩, ⟨3, 40, 10⟩] :
          List (NodeResponse Nat)) 50 : ℚ) :=
  ((quorum_read_resolution ⟨3, 33, 50⟩
      [⟨1, 50, 10⟩, ⟨2, 50, 10⟩, ⟨3, 40, 10⟩] (by decide)).1 50
    (by decide)).2.2.2

/-- A scan over a history with no output activity finds no used address. -/
theorem scanGo_all_false (gapLimit : Nat) :
    ∀ (hist : List Bool), (∀ b ∈ hist, b = false) →
      ∀ idx fuel, scanGo gapLimit hist idx fuel Option.none = Option.none := by
  intro hist
  induction hist with
  | nil =>
    intro _ idx fuel
    cases fuel <;> rfl
  | cons b rest ih =>
    intro hall idx fuel
    cases fuel with
    | zero => rfl
    | succ f =>
      have hb : b = false := hall b (List.mem_cons_self b rest)
      rw [scanGo, hb]
      exact ih (fun x hx => hall x (List.mem_cons_of_mem b hx)) (idx + 1) f

/-- C4: the UnspentAddressGetter gap-limit scan terminates and reports the
last address with output history together with its index: with outputs
only at indices {0, 3} and gap limit 5, it reports index 3 whatever the
history holds past index 3 + 5 (it never scans there); and over a history
with no activity at all, it reports the initial address and its starting
index. -/
theorem unspent_gap_scan (seed : Seed) (accountIndex : Nat) :
    (∀ ext : List Bool,
      unspentAddressGet seed accountIndex 5
        ([true, false, false, true, false, false, false, false, false] ++ ext)
        0 =
      (deriveAddress seed accountIndex 3 false, 3)) ∧
    (∀ gapLimit n start : Nat,
      unspentAddressGet seed accountIndex gapLimit
        (List.replicate n false) start =
      (deriveAddress seed accountIndex start false, start)) := by
  constructor
  · intro ext
    rw [unspentAddressGet, scanLastUsed, List.drop_zero]
    simp [scanGo]
  · intro gapLimit n start
    rw [unspentAddressGet, scanLastUsed,
      scanGo_all_false gapLimit ((List.replicate n false).drop start)
        (fun b hb =>
          List.eq_of_mem_replicate (List.mem_of_mem_drop hb))
        start gapLimit]
    rfl

/-- C8: AddressFinder is synchronous and offline: it issues no network
request, and for every seed, account index and range `[start, stop)` its
result derives exactly the addresses at indices `start, …, stop - 1`, each
paired with the "has been used" flag left to the caller. -/
theorem address_finder_offline (net : NetLog) (seed : Seed)
    (accountIndex start stop : Nat) :
    (addressFinderRun net seed accountIndex start stop).2 = net ∧
    (addressFinderRun net seed accountIndex start stop).1.length =
      stop - start ∧
    ∀ k, k < stop - start →
      (addressFinderRun net seed accountIndex start stop).1[k]? =
        some (deriveAddress seed accountIndex (start + k) false, false) := by
  refine ⟨rfl, ?_, ?_⟩
  · simp [addressFinderRun, addressFinderGet]
  · intro k hk
    have h1 := List.getElem?_range' start 1 hk
    simp [addressFinderRun, addressFinderGet, List.getElem?_map, h1]

/-- Witness for C8: range [2, 4), element 1 is the address at index 3. -/
theorem address_finder_offline_witness :
    (addressFinderRun [] [] 0 2 4).1[1]? =
      some (deriveAddress [] 0 3 false, false) :=
  (address_finder_offline [] [] 0 2 4).2.2 1 (by decide)

/-- C5: when the attached outputs' total value exceeds the selected
inputs' total value, the message builder rejects the transition with
`UnderfundedTransaction` and issues no network request — the failure
precedes any submission attempt. -/
theorem submit_underfunded (inputs : List Nat) (outputs : List (String × Nat))
    (h : inputsTotal inputs < outputsTotal outputs) :
    submitMessage inputs outputs = (.error .underfundedTransaction, []) := by
  rw [submitMessage, assembleTransaction, if_pos h]

/-- Witness for C5: inputs summing to 100 and outputs summing to 150 are
rejected without any network request. -/
theorem submit_underfunded_witness :
    inputsTotal [100] < outputsTotal [("addr", 150)] ∧
      submitMessage [100] [("addr", 150)] =
        (.error .underfundedTransaction, []) :=
  ⟨by decide, submit_underfunded [100] [("addr", 150)] (by decide)⟩

/-- A successful nonce search returns a nonce meeting the target score. -/
theorem powSearch_ok (score : List Nat → Nat → Nat) (messageBytes : List Nat)
    (targetScore : Nat) :
    ∀ (fuel start nonce : Nat),
      powSearch score messageBytes targetScore start fuel = .ok nonce →
      targetScore ≤ score messageBytes nonce := by
  intro fuel
  induction fuel with
  | zero => intro start nonce h; exact Except.noConfusion h
  | succ f ih =>
    intro start nonce h
    rw [powSearch] at h
    by_cases hs : targetScore ≤ score messageBytes start
    · rw [if_pos hs] at h
      injection h with h
      rw [← h]
      exact hs
    · rw [if_neg hs] at h
      exact ih (start + 1) nonce h

/-- When no nonce in the budget window meets the target, the search times
out. -/
theorem powSearch_timeout (score : List Nat → Nat → Nat)
    (messageBytes : List Nat) (targetScore : Nat) :
    ∀ (fuel start : Nat),
      (∀ n, start ≤ n → n < start + fuel →
        score messageBytes n < targetScore) →
      powSearch score messageBytes targetScore start fuel =
        .error .proofOfWorkTimeout := by
  intro fuel
  induction fuel with
  | zero => intro start _; rfl
  | succ f ih =>
    intro start hall
    rw [powSearch,
      if_neg (Nat.not_le.mpr (hall start (Nat.le_refl start) (by omega)))]
    exact ih (start + 1) (fun n h1 h2 => hall n (by omega) (by omega))

/-- C6: when the proof-of-work computation succeeds, the returned nonce
recomputes to a score meeting or exceeding the requested target; when no
nonce within the configured iteration budget reaches the target, it fails
with `ProofOfWorkTimeout`. -/
theorem pow_compute_correct (score : List Nat → Nat → Nat)
    (messageBytes : List Nat) (targetScore budget : Nat) :
    (∀ nonce,
        powCompute score messageBytes targetScore budget = .ok nonce →
        targetScore ≤ score messageBytes nonce) ∧
    ((∀ nonce, nonce < budget → score messageBytes nonce < targetScore) →
      powCompute score messageBytes targetScore budget =
        .error .proofOfWorkTimeout) := by
  constructor
  · intro nonce h
    exact powSearch_ok score messageBytes targetScore budget 0 nonce h
  · intro hall
    exact powSearch_timeout score messageBytes targetScore budget 0
      (fun n _ h2 => hall n (by omega))

/-- Witness for C6: with the score function returning the nonce itself,
target 2 and budget 5 succeed with a nonce scoring at least 2; with a
constant-zero score, target 1 and budget 3 time out. -/
theorem pow_compute_correct_witness :
    (2 ≤ (fun (_ : List Nat) (n : Nat) => n) [] 2) ∧
      powCompute (fun _ _ => 0) [] 1 3 = .error .proofOfWorkTimeout :=
  ⟨(pow_compute_correct (fun _ n => n) [] 2 5).1 2 (by decide),
   (pow_compute_correct (fun _ _ => 0) [] 1 3).2 (fun n _ => by decide)⟩

/-- When every address in the range resolves, the aggregation returns the
sum of the per-address balances. -/
theorem aggregateBalance_ok (fetch : Nat → Except (QuorumError Nat) Nat)
    (bal : Nat → Nat) :
    ∀ idxs : List Nat, (∀ i ∈ idxs, fetch i = .ok (bal i)) →
      aggregateBalance fetch idxs = .ok ((idxs.map bal).sum) := by
  intro idxs
  induction idxs with
  | nil => intro _; rfl
  | cons i rest ih =>
    intro hall
    rw [aggregateBalance, hall i (List.mem_cons_self i rest),
      ih (fun j hj => hall j (List.mem_cons_of_mem i hj))]
    simp

/-- A quorum failure at any address in the range fails the whole
aggregation. -/
theorem aggregateBalance_err (fetch : Nat → Except (QuorumError Nat) Nat) :
    ∀ (idxs : List Nat) (i : Nat) (e : QuorumError Nat), i ∈ idxs →
      fetch i = .error e →
      ∃ e', aggregateBalance fetch idxs = .error e' := by
  intro idxs
  induction idxs with
  | nil => intro i e h; exact absurd h (List.not_mem_nil i)
  | cons j rest ih =>
    intro i e hmem hfe
    cases hfj : fetch j with
    | error e₁ => exact ⟨e₁, by rw [aggregateBalance, hfj]⟩
    | ok b =>
      rcases List.mem_cons.mp hmem with rfl | hmem'
      · rw [hfj] at hfe
        exact Except.noConfusion hfe
      · obtain ⟨e', he'⟩ := ih i e hmem' hfe
        exact ⟨e', by rw [aggregateBalance, hfj, he']⟩

/-- C7: BalanceGetter fails closed — a quorum disagreement on any single
address's balance fails the entire aggregation, and when every address
resolves, it returns the sum of the per-address balances over the full
used-address range. -/
theorem balance_get_fail_closed (cfg : QuorumConfig)
    (responsesAt : Nat → List (NodeResponse Nat)) (idxs : List Nat)
    (bal : Nat → Nat) :
    ((∀ i ∈ idxs, resolveQuorum cfg (responsesAt i) = .ok (bal i)) →
      balanceGet cfg responsesAt idxs = .ok ((idxs.map bal).sum)) ∧
    (∀ i ∈ idxs, ∀ e, resolveQuorum cfg (responsesAt i) = .error e →
      ∃ e', balanceGet cfg responsesAt idxs = .error e') := by
  constructor
  · intro hall
    exact aggregateBalance_ok (fun i => resolveQuorum cfg (responsesAt i))
      bal idxs hall
  · intro i hi e he
    exact aggregateBalance_err (fun i => resolveQuorum cfg (responsesAt i))
      idxs i e hi he

/-- Witness for C7: two addresses, each unanimously reporting balance 7 to
a single-node quorum, aggregate to the sum of the per-address balances. -/
theorem balance_get_fail_closed_witness :
    balanceGet ⟨1, 1, 2⟩ (fun _ => [⟨1, 7, 0⟩]) [0, 1] =
      .ok ((([0, 1] : List Nat).map (fun _ => 7)).sum) :=
  (balance_get_fail_closed ⟨1, 1, 2⟩ (fun _ => [⟨1, 7, 0⟩]) [0, 1]
      (fun _ => 7)).1 (fun i _ => by decide)

/-- Every identifier in a store is below the fresh identifier. -/
theorem lt_freshId (s : Store) : ∀ i ∈ storeIds s, i < freshId s := by
  intro i hi
  have hle : ∀ (l : List Nat), i ∈ l →
      i ≤ l.foldr (fun a b => max a b) 0 := by
    intro l
    induction l with
    | nil => intro h; exact absurd h (List.not_mem_nil i)
    | cons x xs ih =>
      intro h
      rcases List.mem_cons.mp h with rfl | h
      · exact Nat.le_max_left _ _
      · exact Nat.le_trans (ih h) (Nat.le_max_right _ _)
  exact Nat.lt_succ_of_le (hle (storeIds s) hi)

/-- Lookup after prepending one binding. -/
theorem lookupMsg_cons (j : Nat) (m : MessageRec) (s : Store) (mid : Nat) :
    lookupMsg ((j, m) :: s) mid =
      if j = mid then some m else lookupMsg s mid := by
  by_cases hj : j = mid
  · simp [lookupMsg, List.find?_cons, hj]
  · simp [lookupMsg, List.find?_cons, hj]

/-- A successful lookup means the identifier is in the store. -/
theorem lookupMsg_mem {s : Store} {mid : Nat} {m : MessageRec}
    (h : lookupMsg s mid = some m) : mid ∈ storeIds s := by
  rw [lookupMsg] at h
  cases hf : s.find? (fun p => p.1 == mid) with
  | none => rw [hf] at h; exact Option.noConfusion h
  | some p =>
    have hp := List.find?_some hf
    have hmem := List.mem_of_find?_eq_some hf
    have : p.1 = mid := by simpa using hp
    rw [← this]
    exact List.mem_map.mpr ⟨p, hmem, rfl⟩

/-- C9: `reattach` and `promote` never mutate a previously submitted
message: each constructs a new message referencing the original through
the Submitted tail of the pipeline, stores it under a fresh identifier,
and every previously stored identifier — the original included — still
looks up to exactly the message it held before. -/
theorem reattach_promote_no_mutation (s : Store) (origId nonce : Nat)
    (m : MessageRec) (h : lookupMsg s origId = some m) :
    (reattachMessage s origId nonce =
        .ok (((freshId s, ⟨[origId], .none, nonce⟩) :: s : Store), freshId s) ∧
      lookupMsg ((freshId s, (⟨[origId], .none, nonce⟩ : MessageRec)) :: s)
          origId = some m ∧
      freshId s ∉ storeIds s ∧
      ∀ j : Nat, j ≠ freshId s →
        lookupMsg ((freshId s, (⟨[origId], .none, nonce⟩ : MessageRec)) :: s) j =
          lookupMsg s j) ∧
    (promoteMessage s origId nonce =
        .ok (((freshId s, ⟨[origId], .indexation "PROMOTE" [], nonce⟩) :: s :
          Store), freshId s) ∧
      ∀ j : Nat, j ≠ freshId s →
        lookupMsg
            ((freshId s,
              (⟨[origId], .indexation "PROMOTE" [], nonce⟩ : MessageRec)) :: s)
            j =
          lookupMsg s j) := by
  have hfresh : freshId s ∉ storeIds s := fun hc =>
    Nat.lt_irrefl _ (lt_freshId s (freshId s) hc)
  have horig : origId ≠ freshId s := fun hc =>
    hfresh (hc ▸ lookupMsg_mem h)
  refine ⟨⟨?_, ?_, hfresh, ?_⟩, ?_, ?_⟩
  · rw [reattachMessage, h]
    rfl
  · rw [lookupMsg_cons, if_neg (fun hc => horig hc.symm)]
    exact h
  · intro j hj
    rw [lookupMsg_cons, if_neg (fun hc => hj hc.symm)]
  · rw [promoteMessage, h]
    rfl
  · intro j hj
    rw [lookupMsg_cons, if_neg (fun hc => hj hc.symm)]

/-- Witness for C9: a store holding message 5; reattach and promote leave
message 5 untouched and add a fresh message 6 referencing it. -/
theorem reattach_promote_no_mutation_witness :
    (reattachMessage [(5, ⟨[], .none, 0⟩)] 5 9 =
        .ok (((freshId [(5, ⟨[], .none, 0⟩)],
            ⟨[5], .none, 9⟩) :: [(5, ⟨[], .none, 0⟩)] : Store),
          freshId [(5, ⟨[], .none, 0⟩)]) ∧
      lookupMsg ((freshId [(5, ⟨[], .none, 0⟩)],
          (⟨[5], .none, 9⟩ : MessageRec)) :: [(5, ⟨[], .none, 0⟩)]) 5 =
        some ⟨[], .none, 0⟩ ∧
      freshId [(5, ⟨[], .none, 0⟩)] ∉ storeIds [(5, ⟨[], .none, 0⟩)] ∧
      ∀ j : Nat, j ≠ freshId [(5, ⟨[], .none, 0⟩)] →
        lookupMsg ((freshId [(5, ⟨[], .none, 0⟩)],
            (⟨[5], .none, 9⟩ : MessageRec)) :: [(5, ⟨[], .none, 0⟩)]) j =
          lookupMsg [(5, ⟨[], .none, 0⟩)] j) ∧
    (promoteMessage [(5, ⟨[], .none, 0⟩)] 5 9 =
        .ok (((freshId [(5, ⟨[], .none, 0⟩)],
            ⟨[5], .indexation "PROMOTE" [], 9⟩) :: [(5, ⟨[], .none, 0⟩)] :
          Store), freshId [(5, ⟨[], .none, 0⟩)]) ∧
      ∀ j : Nat, j ≠ freshId [(5, ⟨[], .none, 0⟩)] →
        lookupMsg ((freshId [(5, ⟨[], .none, 0⟩)],
            (⟨[5], .indexation "PROMOTE" [], 9⟩ : MessageRec)) ::
              [(5, ⟨[], .none, 0⟩)]) j =
          lookupMsg [(5, ⟨[], .none, 0⟩)] j) :=
  reattach_promote_no_mutation [(5, ⟨[], .none, 0⟩)] 5 9 ⟨[], .none, 0⟩
    (by decide)

/-- C10: whenever getTips succeeds, it resolves to exactly two message
identifiers — the binding declares the result type `[string, string]`. -/
theorem get_tips_pair (cfg : QuorumConfig)
    (rs : List (NodeResponse (String × String))) (t : GetTipsResult)
    (_h : getTipsResolve cfg rs = .ok t) : (tipsIds t).length = 2 := by
  rfl

/-- Witness for C10: two nodes agreeing on the tip pair ("a", "b") reach
quorum and yield exactly two tips. -/
theorem get_tips_pair_witness :
    (tipsIds ("a", "b")).length = 2 :=
  get_tips_pair ⟨2, 1, 2⟩ [⟨1, ("a", "b"), 0⟩, ⟨2, ("a", "b"), 0⟩]
    ("a", "b") (by decide)

end IotaClient
